import Mathlib

/-!
Verification of the magnum-extras UI core against its specification.

The development shallowly embeds the parts of the C++ sources that the
checked properties are about:

* the `UserInterfaceState` dirty-bit encoding from
  `src/Magnum/Ui/AbstractUserInterface.h` (`Ui` namespace below),
* the handle packing helpers from `src/Magnum/Whee/TextLayer.h` and, for
  the families whose `Handle.h` implementation is not part of the sources
  at hand, a model built from the specification (`Whee` namespace),
* the font registry of `TextLayer::Shared`, the glyph-run bookkeeping of
  `TextLayer::remove`/`doClean`/`doUpdate` from
  `src/Magnum/Whee/TextLayer.cpp`,
* the index/vertex generation of `BaseLayer::doUpdate` from
  `src/Magnum/Whee/BaseLayer.cpp`,
* a specification-level model of the event-dispatch entry points
  (`pointerReleaseEvent`, `focusEvent`, `textInputEvent`) whose
  implementation file is likewise not among the sources.

Machine integers are modelled as `Nat` with explicit `% 2^w` at the points
where the C++ code converts to a fixed-width type.
-/

namespace Ui

/-! ## `UserInterfaceState` bit encoding

Transcribed from the `UserInterfaceState` enum in
`src/Magnum/Ui/AbstractUserInterface.h` (underlying type `UnsignedShort`).
Each constant is written with the same bitwise expression as the source. -/

def NeedsDataUpdate : Nat := 1 <<< 0

def NeedsDataAttachmentUpdate : Nat := NeedsDataUpdate ||| (1 <<< 1)

def NeedsNodeEnabledUpdate : Nat := NeedsDataAttachmentUpdate ||| (1 <<< 2)

def NeedsNodeClipUpdate : Nat := NeedsNodeEnabledUpdate ||| (1 <<< 3)

def NeedsLayoutUpdate : Nat := NeedsNodeClipUpdate ||| (1 <<< 4)

def NeedsLayoutAssignmentUpdate : Nat := NeedsLayoutUpdate ||| (1 <<< 5)

def NeedsNodeOpacityUpdate : Nat := NeedsDataUpdate ||| (1 <<< 6)

def NeedsNodeUpdate : Nat :=
  NeedsLayoutAssignmentUpdate ||| NeedsNodeOpacityUpdate ||| (1 <<< 7)

def NeedsDataClean : Nat := 1 <<< 8

def NeedsNodeClean : Nat := NeedsNodeUpdate ||| NeedsDataClean ||| (1 <<< 9)

def NeedsAnimationAdvance : Nat := 1 <<< 10

/-- The implication chain claimed by the specification for the
`UserInterfaceState` lattice, from most to least inclusive, without the
opacity branch: `NeedsNodeClean ⊇ NeedsNodeUpdate ⊇
NeedsLayoutAssignmentUpdate ⊇ NeedsLayoutUpdate ⊇ NeedsNodeClipUpdate ⊇
NeedsNodeEnabledUpdate ⊇ NeedsDataAttachmentUpdate ⊇ NeedsDataUpdate`. -/
def uiStateChain : List Nat :=
  [NeedsNodeClean, NeedsNodeUpdate, NeedsLayoutAssignmentUpdate,
   NeedsLayoutUpdate, NeedsNodeClipUpdate, NeedsNodeEnabledUpdate,
   NeedsDataAttachmentUpdate, NeedsDataUpdate]

/-- All pairs `(X, Y)` with `X` before `Y` in `uiStateChain` (so the chain
says `X` implies `Y`, transitively), plus the separate branch
`NeedsNodeClean ⊇ NeedsDataClean`. -/
def uiStateImplicationPairs : List (Nat × Nat) :=
  (uiStateChain.tails.flatMap fun t =>
    match t with
    | [] => []
    | x :: ys => ys.map fun y => (x, y)) ++ [(NeedsNodeClean, NeedsDataClean)]

end Ui

/-- If `y`'s bits are contained in `x` and `x`'s bits are contained in `s`,
then `y`'s bits are contained in `s`. -/
theorem land_contains_trans {s x y : Nat} (hxy : x &&& y = y)
    (hsx : s &&& x = x) : s &&& y = y := by
  apply Nat.eq_of_testBit_eq
  intro i
  have h1 := congrArg (fun n => n.testBit i) hxy
  have h2 := congrArg (fun n => n.testBit i) hsx
  simp only [Nat.testBit_land] at h1 h2 ⊢
  cases hs : s.testBit i <;> cases hx : x.testBit i <;>
    cases hy : y.testBit i <;> simp_all

/-- C1: in the `UserInterfaceState` bit encoding, for every pair `(X, Y)`
where the specification's implication chain (and its `NeedsDataClean`
branch) says `X` implies `Y`, the enum constant of `X` bit-contains that of
`Y` (`X &&& Y = Y`), and consequently any state bitset with `X` set has `Y`
set. -/
theorem uiState_implication_lattice :
    ∀ p ∈ Ui.uiStateImplicationPairs,
      p.1 &&& p.2 = p.2 ∧ ∀ s : Nat, s &&& p.1 = p.1 → s &&& p.2 = p.2 := by
  intro p hp
  have hall : ∀ q ∈ Ui.uiStateImplicationPairs, q.1 &&& q.2 = q.2 := by decide
  have hcontain : p.1 &&& p.2 = p.2 := hall p hp
  exact ⟨hcontain, fun s hs => land_contains_trans hcontain hs⟩

/-- Witness for C1 at a concrete pair and state: the pair
`(NeedsNodeClean, NeedsDataUpdate)` is in the implication list, and the
state `NeedsNodeClean` itself has `NeedsDataUpdate` set. -/
theorem uiState_implication_lattice_witness :
    (Ui.NeedsNodeClean, Ui.NeedsDataUpdate) ∈ Ui.uiStateImplicationPairs ∧
      Ui.NeedsNodeClean &&& Ui.NeedsDataUpdate = Ui.NeedsDataUpdate := by
  refine ⟨by decide, ?_⟩
  exact (uiState_implication_lattice (Ui.NeedsNodeClean, Ui.NeedsDataUpdate)
    (by decide)).2 Ui.NeedsNodeClean (by decide)

/-- C3 counterexample: `NeedsNodeOpacityUpdate` does NOT bit-contain
`NeedsLayoutUpdate`, and the state bitset consisting of exactly
`NeedsNodeOpacityUpdate` has `NeedsNodeOpacityUpdate` set but not
`NeedsLayoutUpdate`, `NeedsNodeClipUpdate`, `NeedsNodeEnabledUpdate` nor
`NeedsDataAttachmentUpdate`. -/
theorem nodeOpacity_not_contains_layoutUpdate :
    Ui.NeedsNodeOpacityUpdate &&& Ui.NeedsLayoutUpdate ≠ Ui.NeedsLayoutUpdate ∧
    (Ui.NeedsNodeOpacityUpdate &&& Ui.NeedsNodeOpacityUpdate =
      Ui.NeedsNodeOpacityUpdate ∧
     Ui.NeedsNodeOpacityUpdate &&& Ui.NeedsLayoutUpdate ≠ Ui.NeedsLayoutUpdate ∧
     Ui.NeedsNodeOpacityUpdate &&& Ui.NeedsNodeClipUpdate ≠ Ui.NeedsNodeClipUpdate ∧
     Ui.NeedsNodeOpacityUpdate &&& Ui.NeedsNodeEnabledUpdate ≠ Ui.NeedsNodeEnabledUpdate ∧
     Ui.NeedsNodeOpacityUpdate &&& Ui.NeedsDataAttachmentUpdate ≠ Ui.NeedsDataAttachmentUpdate) := by
  decide

/-- C3 amended: `NeedsNodeOpacityUpdate` bit-contains only `NeedsDataUpdate`
(so every state bitset with `NeedsNodeOpacityUpdate` set also has
`NeedsDataUpdate` set), it is itself bit-contained in `NeedsNodeUpdate` and
`NeedsNodeClean`, and it does not bit-contain `NeedsLayoutUpdate`,
`NeedsNodeClipUpdate`, `NeedsNodeEnabledUpdate` or
`NeedsDataAttachmentUpdate`. -/
theorem nodeOpacity_implies_dataUpdate_only :
    Ui.NeedsNodeOpacityUpdate &&& Ui.NeedsDataUpdate = Ui.NeedsDataUpdate ∧
    Ui.NeedsNodeUpdate &&& Ui.NeedsNodeOpacityUpdate = Ui.NeedsNodeOpacityUpdate ∧
    Ui.NeedsNodeClean &&& Ui.NeedsNodeOpacityUpdate = Ui.NeedsNodeOpacityUpdate ∧
    Ui.NeedsNodeOpacityUpdate &&& Ui.NeedsLayoutUpdate ≠ Ui.NeedsLayoutUpdate ∧
    Ui.NeedsNodeOpacityUpdate &&& Ui.NeedsNodeClipUpdate ≠ Ui.NeedsNodeClipUpdate ∧
    Ui.NeedsNodeOpacityUpdate &&& Ui.NeedsNodeEnabledUpdate ≠ Ui.NeedsNodeEnabledUpdate ∧
    Ui.NeedsNodeOpacityUpdate &&& Ui.NeedsDataAttachmentUpdate ≠ Ui.NeedsDataAttachmentUpdate ∧
    ∀ s : Nat, s &&& Ui.NeedsNodeOpacityUpdate = Ui.NeedsNodeOpacityUpdate →
      s &&& Ui.NeedsDataUpdate = Ui.NeedsDataUpdate := by
  refine ⟨by decide, by decide, by decide, by decide, by decide, by decide,
    by decide, ?_⟩
  intro s hs
  exact land_contains_trans (by decide) hs

/-- Witness for the amended C3 at a concrete state: the state
`NeedsNodeOpacityUpdate` itself has `NeedsDataUpdate` set. -/
theorem nodeOpacity_implies_dataUpdate_only_witness :
    Ui.NeedsNodeOpacityUpdate &&& Ui.NeedsDataUpdate = Ui.NeedsDataUpdate := by
  exact nodeOpacity_implies_dataUpdate_only.2.2.2.2.2.2.2
    Ui.NeedsNodeOpacityUpdate (by decide)

/-! ## Handle packing

Generic facts about packing an id into the low `bits` bits and a
generation above it, shared by all handle families. -/

/-- Packing an id below `2^bits` and a generation below `2^n` stays below
`2^(bits+n)`. -/
theorem pack_lt {id gen bits n : Nat} (hid : id < 2 ^ bits)
    (hgen : gen < 2 ^ n) : id ||| (gen <<< bits) < 2 ^ (bits + n) := by
  apply Nat.or_lt_two_pow
  · exact lt_of_lt_of_le hid
      (Nat.pow_le_pow_right (by norm_num) (Nat.le_add_right _ _))
  · rw [Nat.shiftLeft_eq, pow_add, mul_comm (2 ^ bits) (2 ^ n)]
    have h2 : (0 : ℕ) < 2 ^ bits := pow_pos (by norm_num) bits
    exact (mul_lt_mul_right h2).mpr hgen

/-- Masking the packed value with `2^b - 1` recovers the id. -/
theorem unpack_id (b : Nat) {id gen : Nat} (hid : id < 2 ^ b) :
    (id ||| (gen <<< b)) &&& (2 ^ b - 1) = id := by
  apply Nat.eq_of_testBit_eq
  intro i
  simp only [Nat.testBit_land, Nat.testBit_lor, Nat.testBit_shiftLeft,
    Nat.testBit_two_pow_sub_one]
  by_cases hi : i < b
  · have hnle : ¬b ≤ i := by omega
    simp [hi, hnle]
  · have hfalse : id.testBit i = false :=
      Nat.testBit_lt_two_pow (lt_of_lt_of_le hid
        (Nat.pow_le_pow_right (by norm_num) (by omega)))
    simp [hi, hfalse]

/-- Shifting the packed value right by `b` recovers the generation. -/
theorem unpack_gen (b : Nat) {id gen : Nat} (hid : id < 2 ^ b) :
    (id ||| (gen <<< b)) >>> b = gen := by
  apply Nat.eq_of_testBit_eq
  intro i
  simp only [Nat.testBit_shiftRight, Nat.testBit_lor, Nat.testBit_shiftLeft]
  have hfalse : id.testBit (b + i) = false :=
    Nat.testBit_lt_two_pow (lt_of_lt_of_le hid
      (Nat.pow_le_pow_right (by norm_num) (by omega)))
  have hle : b ≤ b + i := Nat.le_add_right _ _
  simp [hfalse, hle, Nat.add_sub_cancel_left]

/-- Packing followed by truncation to a word of `w ≥ b + n` bits, then
extracting the id and the generation, round-trips. -/
theorem pack_roundtrip (b n w id gen : Nat) (hw : b + n ≤ w)
    (hid : id < 2 ^ b) (hgen : gen < 2 ^ n) :
    ((id ||| (gen <<< b)) % 2 ^ w) &&& (2 ^ b - 1) = id ∧
      ((id ||| (gen <<< b)) % 2 ^ w) >>> b = gen := by
  have hv : id ||| (gen <<< b) < 2 ^ w :=
    lt_of_lt_of_le (pack_lt hid hgen)
      (Nat.pow_le_pow_right (by norm_num) hw)
  rw [Nat.mod_eq_of_lt hv]
  exact ⟨unpack_id b hid, unpack_gen b hid⟩

namespace Whee

/-! ## Font handles

Transcribed from `src/Magnum/Whee/TextLayer.h`: `FontHandle` uses 15 bits
for the id and 1 bit for the generation, packed into an `UnsignedShort`
(the `% 2 ^ 16` below is the conversion to the underlying 16-bit type);
`fontHandle()` additionally asserts that the id and generation are in
bounds, which the theorems carry as hypotheses. -/

def FontHandleIdBits : Nat := 15

def FontHandleGenerationBits : Nat := 1

def fontHandle (id generation : Nat) : Nat :=
  (id ||| (generation <<< FontHandleIdBits)) % 2 ^ 16

def fontHandleId (handle : Nat) : Nat :=
  handle &&& ((1 <<< FontHandleIdBits) - 1)

def fontHandleGeneration (handle : Nat) : Nat :=
  handle >>> FontHandleIdBits

/-- `FontHandle::Null`. -/
def FontHandleNull : Nat := 0

/-! ## Layer, node, layer-data and data handles

Modelled from the spec: the implementation file `Handle.h` defining the
`layerHandle`/`nodeHandle`/`layerDataHandle`/`dataHandle` families is not
among the sources (only its test is). The spec gives the bit layout:
Layer 8-bit id + 8-bit generation; Node and per-layer data 20-bit id +
12-bit generation; a composite Data handle embeds the 16-bit layer handle
above the 32-bit layer-data handle. The id sits in the low bits and the
generation above it, like the `fontHandle` family present in the source. -/

def LayerHandleIdBits : Nat := 8

def LayerHandleGenerationBits : Nat := 8

def layerHandle (id generation : Nat) : Nat :=
  (id ||| (generation <<< LayerHandleIdBits)) % 2 ^ 16

def layerHandleId (handle : Nat) : Nat :=
  handle &&& ((1 <<< LayerHandleIdBits) - 1)

def layerHandleGeneration (handle : Nat) : Nat :=
  handle >>> LayerHandleIdBits

def LayerHandleNull : Nat := 0

def NodeHandleIdBits : Nat := 20

def NodeHandleGenerationBits : Nat := 12

def nodeHandle (id generation : Nat) : Nat :=
  (id ||| (generation <<< NodeHandleIdBits)) % 2 ^ 32

def nodeHandleId (handle : Nat) : Nat :=
  handle &&& ((1 <<< NodeHandleIdBits) - 1)

def nodeHandleGeneration (handle : Nat) : Nat :=
  handle >>> NodeHandleIdBits

def NodeHandleNull : Nat := 0

def LayerDataHandleIdBits : Nat := 20

def LayerDataHandleGenerationBits : Nat := 12

def layerDataHandle (id generation : Nat) : Nat :=
  (id ||| (generation <<< LayerDataHandleIdBits)) % 2 ^ 32

def layerDataHandleId (handle : Nat) : Nat :=
  handle &&& ((1 <<< LayerDataHandleIdBits) - 1)

def layerDataHandleGeneration (handle : Nat) : Nat :=
  handle >>> LayerDataHandleIdBits

def LayerDataHandleNull : Nat := 0

/-- Modelled from the spec: the composite Data handle places the 16-bit
layer handle in bits 32..47 above the 32-bit layer-data handle. -/
def dataHandle (layer id generation : Nat) : Nat :=
  ((layer % 2 ^ 16) <<< 32) ||| layerDataHandle id generation

def dataHandleLayer (handle : Nat) : Nat := handle >>> 32

def dataHandleData (handle : Nat) : Nat := handle &&& (2 ^ 32 - 1)

def dataHandleLayerId (handle : Nat) : Nat :=
  layerHandleId (dataHandleLayer handle)

def dataHandleLayerGeneration (handle : Nat) : Nat :=
  layerHandleGeneration (dataHandleLayer handle)

def dataHandleId (handle : Nat) : Nat :=
  layerDataHandleId (dataHandleData handle)

def dataHandleGeneration (handle : Nat) : Nat :=
  layerDataHandleGeneration (dataHandleData handle)

def DataHandleNull : Nat := 0

/-! ## Font registry of `TextLayer::Shared`

Transcribed from `src/Magnum/Whee/TextLayer.cpp`. A font entry keeps the
font reference, the scale and the glyph-cache font id (the `fontStorage`
and `shaper` pointers carry no information relevant here beyond their
presence). -/

structure TextLayerFont where
  font : Nat
  scale : ℚ
  glyphCacheFontId : Nat
deriving Inhabited, Repr

/-- `isHandleValid(fonts, handle)` from the anonymous namespace of
`TextLayer.cpp`: a font handle is valid iff its generation is 1 and its id
is below the current number of fonts. -/
def isHandleValid (fonts : List TextLayerFont) (handle : Nat) : Bool :=
  (fontHandleGeneration handle == 1) &&
    decide (fontHandleId handle < fonts.length)

/-- `TextLayer::Shared::addFont()`: appends a font entry and returns a
handle with the id of the new last slot and generation 1. The glyph-cache
lookup and the capacity assert (`fonts.size() < 1 << FontHandleIdBits`) are
preconditions of the call; the capacity bound appears as a hypothesis in
the theorems below. -/
def addFont (fonts : List TextLayerFont) (font : Nat) (scale : ℚ)
    (glyphCacheFontId : Nat) : List TextLayerFont × Nat :=
  let fonts' := fonts ++ [⟨font, scale, glyphCacheFontId⟩]
  (fonts', fontHandle (fonts'.length - 1) 1)

/-! ## Generic slot registries

Modelled from the spec: the handle/generation registry backing layer and
node handles (its implementation is not among the sources). A slot is
occupied or free and carries the current generation; `isValid(handle)` is
true iff the id is below capacity, the slot is occupied, the slot
generation equals the handle generation, and the handle is not Null. -/

structure Slot where
  occupied : Bool
  generation : Nat
deriving Inhabited, Repr

def layerIsHandleValid (slots : List Slot) (handle : Nat) : Bool :=
  (handle != 0) && decide (layerHandleId handle < slots.length) &&
    (slots.getD (layerHandleId handle) default).occupied &&
    ((slots.getD (layerHandleId handle) default).generation ==
      layerHandleGeneration handle)

def nodeIsHandleValid (slots : List Slot) (handle : Nat) : Bool :=
  (handle != 0) && decide (nodeHandleId handle < slots.length) &&
    (slots.getD (nodeHandleId handle) default).occupied &&
    ((slots.getD (nodeHandleId handle) default).generation ==
      nodeHandleGeneration handle)

end Whee

/-- C2: handle round-trip for every family. Composing a handle from an
`(id, generation)` pair within the family's bit bounds and decomposing it
returns the original pair — for font (15+1), layer (8+8), node (20+12),
layer-data (20+12) and composite data handles; the Null handle of each
family decomposes to `(0, 0)`, is the value composed from `(0, 0)`, and is
never reported valid. -/
theorem handle_roundtrip :
    (∀ id gen, id < 2 ^ 15 → gen < 2 ^ 1 →
      Whee.fontHandleId (Whee.fontHandle id gen) = id ∧
      Whee.fontHandleGeneration (Whee.fontHandle id gen) = gen) ∧
    (∀ id gen, id < 2 ^ 8 → gen < 2 ^ 8 →
      Whee.layerHandleId (Whee.layerHandle id gen) = id ∧
      Whee.layerHandleGeneration (Whee.layerHandle id gen) = gen) ∧
    (∀ id gen, id < 2 ^ 20 → gen < 2 ^ 12 →
      Whee.nodeHandleId (Whee.nodeHandle id gen) = id ∧
      Whee.nodeHandleGeneration (Whee.nodeHandle id gen) = gen) ∧
    (∀ id gen, id < 2 ^ 20 → gen < 2 ^ 12 →
      Whee.layerDataHandleId (Whee.layerDataHandle id gen) = id ∧
      Whee.layerDataHandleGeneration (Whee.layerDataHandle id gen) = gen) ∧
    (∀ lid lgen id gen, lid < 2 ^ 8 → lgen < 2 ^ 8 → id < 2 ^ 20 →
        gen < 2 ^ 12 →
      Whee.dataHandleLayerId
        (Whee.dataHandle (Whee.layerHandle lid lgen) id gen) = lid ∧
      Whee.dataHandleLayerGeneration
        (Whee.dataHandle (Whee.layerHandle lid lgen) id gen) = lgen ∧
      Whee.dataHandleId
        (Whee.dataHandle (Whee.layerHandle lid lgen) id gen) = id ∧
      Whee.dataHandleGeneration
        (Whee.dataHandle (Whee.layerHandle lid lgen) id gen) = gen) ∧
    (Whee.fontHandleId Whee.FontHandleNull = 0 ∧
     Whee.fontHandleGeneration Whee.FontHandleNull = 0 ∧
     Whee.fontHandle 0 0 = Whee.FontHandleNull ∧
     Whee.layerHandleId Whee.LayerHandleNull = 0 ∧
     Whee.layerHandleGeneration Whee.LayerHandleNull = 0 ∧
     Whee.layerHandle 0 0 = Whee.LayerHandleNull ∧
     Whee.nodeHandleId Whee.NodeHandleNull = 0 ∧
     Whee.nodeHandleGeneration Whee.NodeHandleNull = 0 ∧
     Whee.nodeHandle 0 0 = Whee.NodeHandleNull ∧
     Whee.dataHandleId Whee.DataHandleNull = 0 ∧
     Whee.dataHandleGeneration Whee.DataHandleNull = 0 ∧
     Whee.dataHandle Whee.LayerHandleNull 0 0 = Whee.DataHandleNull) ∧
    (∀ fonts, Whee.isHandleValid fonts Whee.FontHandleNull = false) ∧
    (∀ slots, Whee.layerIsHandleValid slots Whee.LayerHandleNull = false) ∧
    (∀ slots, Whee.nodeIsHandleValid slots Whee.NodeHandleNull = false) := by
  have hmask : ∀ b : Nat, (1 <<< b) - 1 = 2 ^ b - 1 := by
    intro b; rw [Nat.one_shiftLeft]
  refine ⟨?_, ?_, ?_, ?_, ?_, ?_, ?_, ?_, ?_⟩
  · intro id gen hid hgen
    have h := pack_roundtrip 15 1 16 id gen (by norm_num) hid hgen
    simp only [Whee.fontHandle, Whee.fontHandleId, Whee.fontHandleGeneration,
      Whee.FontHandleIdBits, hmask]
    exact h
  · intro id gen hid hgen
    have h := pack_roundtrip 8 8 16 id gen (by norm_num) hid hgen
    simp only [Whee.layerHandle, Whee.layerHandleId,
      Whee.layerHandleGeneration, Whee.LayerHandleIdBits, hmask]
    exact h
  · intro id gen hid hgen
    have h := pack_roundtrip 20 12 32 id gen (by norm_num) hid hgen
    simp only [Whee.nodeHandle, Whee.nodeHandleId,
      Whee.nodeHandleGeneration, Whee.NodeHandleIdBits, hmask]
    exact h
  · intro id gen hid hgen
    have h := pack_roundtrip 20 12 32 id gen (by norm_num) hid hgen
    simp only [Whee.layerDataHandle, Whee.layerDataHandleId,
      Whee.layerDataHandleGeneration, Whee.LayerDataHandleIdBits, hmask]
    exact h
  · intro lid lgen id gen hlid hlgen hid hgen
    have hlayer : Whee.layerHandle lid lgen < 2 ^ 16 := by
      rw [Whee.layerHandle]
      exact Nat.mod_lt _ (by norm_num)
    have hdata : Whee.layerDataHandle id gen < 2 ^ 32 := by
      rw [Whee.layerDataHandle]
      exact Nat.mod_lt _ (by norm_num)
    have hmod : Whee.layerHandle lid lgen % 2 ^ 16 =
        Whee.layerHandle lid lgen := Nat.mod_eq_of_lt hlayer
    have hcomm : Whee.dataHandle (Whee.layerHandle lid lgen) id gen =
        Whee.layerDataHandle id gen |||
          ((Whee.layerHandle lid lgen) <<< 32) := by
      rw [Whee.dataHandle, hmod, Nat.lor_comm]
    have hlayerPart : Whee.dataHandleLayer
        (Whee.dataHandle (Whee.layerHandle lid lgen) id gen) =
        Whee.layerHandle lid lgen := by
      rw [hcomm]
      exact unpack_gen 32 hdata
    have hdataPart : Whee.dataHandleData
        (Whee.dataHandle (Whee.layerHandle lid lgen) id gen) =
        Whee.layerDataHandle id gen := by
      rw [hcomm]
      exact unpack_id 32 hdata
    have hlayerRound := pack_roundtrip 8 8 16 lid lgen (by norm_num) hlid hlgen
    have hdataRound := pack_roundtrip 20 12 32 id gen (by norm_num) hid hgen
    refine ⟨?_, ?_, ?_, ?_⟩
    · rw [Whee.dataHandleLayerId, hlayerPart]
      simpa [Whee.layerHandle, Whee.layerHandleId, Whee.LayerHandleIdBits,
        hmask] using hlayerRound.1
    · rw [Whee.dataHandleLayerGeneration, hlayerPart]
      simpa [Whee.layerHandle, Whee.layerHandleGeneration,
        Whee.LayerHandleIdBits] using hlayerRound.2
    · rw [Whee.dataHandleId, hdataPart]
      simpa [Whee.layerDataHandle, Whee.layerDataHandleId,
        Whee.LayerDataHandleIdBits, hmask] using hdataRound.1
    · rw [Whee.dataHandleGeneration, hdataPart]
      simpa [Whee.layerDataHandle, Whee.layerDataHandleGeneration,
        Whee.LayerDataHandleIdBits] using hdataRound.2
  · decide
  · intro fonts
    simp [Whee.isHandleValid, Whee.FontHandleNull,
      Whee.fontHandleGeneration, Whee.FontHandleIdBits]
  · intro slots
    simp [Whee.layerIsHandleValid, Whee.LayerHandleNull]
  · intro slots
    simp [Whee.nodeIsHandleValid, Whee.NodeHandleNull]

/-- Witness for C2 at concrete inputs: the id/generation pairs of the test
suite round-trip, e.g. the node handle composed from `(0xabcde, 0x123)`. -/
theorem handle_roundtrip_witness :
    Whee.nodeHandleId (Whee.nodeHandle 0xabcde 0x123) = 0xabcde ∧
      Whee.nodeHandleGeneration (Whee.nodeHandle 0xabcde 0x123) = 0x123 ∧
      Whee.fontHandleId (Whee.fontHandle 3 1) = 3 ∧
      Whee.fontHandleGeneration (Whee.fontHandle 3 1) = 1 := by
  obtain ⟨hfont, _, hnode, -⟩ := handle_roundtrip
  obtain ⟨h1, h2⟩ := hnode 0xabcde 0x123 (by norm_num) (by norm_num)
  obtain ⟨h3, h4⟩ := hfont 3 1 (by norm_num) (by norm_num)
  exact ⟨h1, h2, h3, h4⟩

/-- C4: `TextLayer::Shared::addFont` never invalidates existing font
handles — every handle valid before the call is valid after it; the
returned handle has id equal to the font count before the call and
generation 1, is itself valid afterwards, and the font count grows by
exactly one. The hypothesis is the capacity assert of `addFont()`. -/
theorem addFont_preserves_valid_handles
    (fonts : List Whee.TextLayerFont) (font : Nat) (scale : ℚ)
    (glyphCacheFontId : Nat) (hcap : fonts.length < 2 ^ 15) :
    (Whee.addFont fonts font scale glyphCacheFontId).1.length =
        fonts.length + 1 ∧
    (∀ h, Whee.isHandleValid fonts h = true →
      Whee.isHandleValid (Whee.addFont fonts font scale glyphCacheFontId).1
        h = true) ∧
    Whee.fontHandleId (Whee.addFont fonts font scale glyphCacheFontId).2 =
        fonts.length ∧
    Whee.fontHandleGeneration
        (Whee.addFont fonts font scale glyphCacheFontId).2 = 1 ∧
    Whee.isHandleValid (Whee.addFont fonts font scale glyphCacheFontId).1
        (Whee.addFont fonts font scale glyphCacheFontId).2 = true := by
  have hround := pack_roundtrip 15 1 16 fonts.length 1 (by norm_num) hcap (by norm_num)
  have hlen : (Whee.addFont fonts font scale glyphCacheFontId).1.length =
      fonts.length + 1 := by
    simp [Whee.addFont]
  have hhandle : (Whee.addFont fonts font scale glyphCacheFontId).2 =
      Whee.fontHandle fonts.length 1 := by
    simp [Whee.addFont]
  have hid : Whee.fontHandleId
      (Whee.addFont fonts font scale glyphCacheFontId).2 = fonts.length := by
    rw [hhandle]
    simpa [Whee.fontHandle, Whee.fontHandleId, Whee.FontHandleIdBits,
      Nat.one_shiftLeft] using hround.1
  have hgen : Whee.fontHandleGeneration
      (Whee.addFont fonts font scale glyphCacheFontId).2 = 1 := by
    rw [hhandle]
    simpa [Whee.fontHandle, Whee.fontHandleGeneration,
      Whee.FontHandleIdBits] using hround.2
  refine ⟨hlen, ?_, hid, hgen, ?_⟩
  · intro h hvalid
    simp only [Whee.isHandleValid, Bool.and_eq_true, decide_eq_true_eq]
      at hvalid ⊢
    exact ⟨hvalid.1, by rw [hlen]; omega⟩
  · simp only [Whee.isHandleValid, Bool.and_eq_true, decide_eq_true_eq,
      hid, hgen, hlen]
    exact ⟨rfl, by omega⟩

/-- Witness for C4 at a concrete registry: adding a font to a registry
already holding one font. -/
theorem addFont_preserves_valid_handles_witness :
    ([(⟨7, (1 : ℚ), 0⟩ : Whee.TextLayerFont)].length < 2 ^ 15) ∧
      (Whee.addFont [(⟨7, (1 : ℚ), 0⟩ : Whee.TextLayerFont)] 9 (2 : ℚ)
        1).1.length = 2 := by
  refine ⟨by norm_num, ?_⟩
  have h := addFont_preserves_valid_handles
    [(⟨7, (1 : ℚ), 0⟩ : Whee.TextLayerFont)] 9 (2 : ℚ) 1 (by norm_num)
  exact h.1

/-! ## In-place update of one list element

Models a write through `array[i].field = value`. -/

def modifyAt {α : Type} : List α → Nat → (α → α) → List α
  | [], _, _ => []
  | a :: l, 0, f => f a :: l
  | a :: l, n + 1, f => a :: modifyAt l n f

theorem modifyAt_length {α : Type} (l : List α) (i : Nat) (f : α → α) :
    (modifyAt l i f).length = l.length := by
  induction l generalizing i with
  | nil => rfl
  | cons a l ih =>
    cases i with
    | zero => rfl
    | succ n => simp [modifyAt, ih]

theorem modifyAt_getD_ne {α : Type} [Inhabited α] (l : List α) (i : Nat)
    (f : α → α) (j : Nat) (h : j ≠ i) :
    (modifyAt l i f).getD j default = l.getD j default := by
  induction l generalizing i j with
  | nil => rfl
  | cons a l ih =>
    cases i with
    | zero =>
      cases j with
      | zero => exact absurd rfl h
      | succ m => rfl
    | succ n =>
      cases j with
      | zero => rfl
      | succ m =>
        simp only [modifyAt, List.getD_cons_succ]
        exact ih n m (by omega)

theorem modifyAt_getD_eq {α : Type} [Inhabited α] (l : List α) (i : Nat)
    (f : α → α) (h : i < l.length) :
    (modifyAt l i f).getD i default = f (l.getD i default) := by
  induction l generalizing i with
  | nil => simp at h
  | cons a l ih =>
    cases i with
    | zero => rfl
    | succ n =>
      simp only [modifyAt, List.getD_cons_succ]
      exact ih n (by simpa using h)

namespace Whee

/-! ## `TextLayer` glyph-run bookkeeping

Transcribed from `src/Magnum/Whee/TextLayer.cpp` (the record layouts come
from the fields that file reads and writes). A glyph run references a
contiguous slice `[glyphOffset, glyphOffset + glyphCount)` of the glyph
data array and points back at the data record owning it; a data record
points at its glyph run. Glyph data entries are abstracted to `Nat`. -/

structure TextLayerGlyphRun where
  glyphOffset : Nat
  glyphCount : Nat
  data : Nat
deriving Inhabited, Repr, DecidableEq

structure TextLayerData where
  scale : ℚ
  alignment : Nat
  glyphRun : Nat
  padding : ℚ × ℚ × ℚ × ℚ
  style : Nat
  color : ℚ × ℚ × ℚ
deriving Inhabited, Repr, DecidableEq

/-- `~UnsignedInt{}`, the sentinel marking a glyph run as unused. -/
def unusedGlyphOffset : Nat := 2 ^ 32 - 1

structure TextLayerState where
  glyphRuns : List TextLayerGlyphRun
  data : List TextLayerData
  glyphData : List Nat
  needsUpdate : Bool
deriving Inhabited, Repr

/-- `AbstractLayer::setNeedsUpdate()`: raises the layer's needs-update
state flag. -/
def setNeedsUpdate (s : TextLayerState) : TextLayerState :=
  { s with needsUpdate := true }

/-- The single marking line shared by `removeInternal()` and `doClean()`:
`state.glyphRuns[state.data[id].glyphRun].glyphOffset = ~UnsignedInt{}`. -/
def markGlyphRunUnused (s : TextLayerState) (id : Nat) : TextLayerState :=
  let r := (s.data.getD id default).glyphRun
  { s with glyphRuns :=
      modifyAt s.glyphRuns r (fun run => { run with glyphOffset := unusedGlyphOffset }) }

/-- `TextLayer::removeInternal()`: marks the data's glyph run as unused and
nothing else; in particular it does not call `setNeedsUpdate()`. -/
def removeInternal (s : TextLayerState) (id : Nat) : TextLayerState :=
  markGlyphRunUnused s id

/-- The loop of `TextLayer::doClean()` over the data ids flagged for
removal, in index order. -/
def markRemoved (dataIdsToRemove : List Bool) :
    List Nat → TextLayerState → TextLayerState
  | [], s => s
  | i :: rest, s =>
    markRemoved dataIdsToRemove rest
      (if dataIdsToRemove.getD i false then markGlyphRunUnused s i else s)

/-- `TextLayer::doClean()`: for each set bit of `dataIdsToRemove`, marks
the corresponding data's glyph run as unused; does not call
`setNeedsUpdate()`. -/
def doClean (s : TextLayerState) (dataIdsToRemove : List Bool) :
    TextLayerState :=
  markRemoved dataIdsToRemove (List.range dataIdsToRemove.length) s

/-- `TextLayer::setPaddingInternal()` (for contrast with `removeInternal`:
an operation that does call `setNeedsUpdate()`). -/
def setPaddingInternal (s : TextLayerState) (id : Nat)
    (padding : ℚ × ℚ × ℚ × ℚ) : TextLayerState :=
  setNeedsUpdate
    { s with data := modifyAt s.data id (fun d => { d with padding := padding }) }

end Whee

namespace Whee

/-- A glyph run takes part in recompaction iff it was not marked unused. -/
def usedRun (r : TextLayerGlyphRun) : Bool :=
  r.glyphOffset != unusedGlyphOffset

/-- Total glyph count of a list of runs. -/
def sumCounts (runs : List TextLayerGlyphRun) : Nat :=
  (runs.map (fun r => r.glyphCount)).sum

/-- `std::memmove` of `count` elements from `src` to `dst` within one
buffer (reads the original contents, as memmove does). -/
def copyWithin {α : Type} (l : List α) (dst src count : Nat) : List α :=
  l.take dst ++ (l.drop src).take count ++ l.drop (dst + count)

/-- The recompaction loop at the start of `TextLayer::doUpdate`, iterating
over the glyph runs with their original index `i`. Runs marked unused are
skipped; a surviving run has its glyph data moved to the current output
offset, its `glyphOffset` rewritten, and — when it moves to a smaller run
index — the owning data record's back-reference updated. Writing the
surviving run at index `outRuns.length` into the array and truncating at
the end is modelled by accumulating the surviving runs in `outRuns` (the
in-source write index `outputGlyphRunOffset` never exceeds `i`, so the
writes never clobber a not-yet-visited run); the final
`arrayResize(glyphData, outputGlyphDataOffset)` is the `take` in the base
case. -/
def compactGo : List TextLayerGlyphRun → Nat → List TextLayerGlyphRun →
    Nat → List TextLayerData → List Nat →
    List TextLayerGlyphRun × List TextLayerData × List Nat
  | [], _, outRuns, outOff, data, gd => (outRuns, data, gd.take outOff)
  | run :: rest, i, outRuns, outOff, data, gd =>
    if run.glyphOffset = unusedGlyphOffset then
      compactGo rest (i + 1) outRuns outOff data gd
    else
      let gd' := if run.glyphOffset ≠ outOff then
          copyWithin gd outOff run.glyphOffset run.glyphCount
        else gd
      let data' := if i ≠ outRuns.length then
          modifyAt data run.data (fun d => { d with glyphRun := outRuns.length })
        else data
      compactGo rest (i + 1) (outRuns ++ [{ run with glyphOffset := outOff }])
        (outOff + run.glyphCount) data' gd'

/-- The recompaction pass of `TextLayer::doUpdate` applied to the layer
state. -/
def compactGlyphRuns (s : TextLayerState) : TextLayerState :=
  let res := compactGo s.glyphRuns 0 [] 0 s.data s.glyphData
  { s with glyphRuns := res.1, data := res.2.1, glyphData := res.2.2 }

end Whee

theorem sumCounts_append (l1 l2 : List Whee.TextLayerGlyphRun) :
    Whee.sumCounts (l1 ++ l2) = Whee.sumCounts l1 + Whee.sumCounts l2 := by
  simp [Whee.sumCounts]

theorem sumCounts_take_le (l : List Whee.TextLayerGlyphRun) (j : Nat) :
    Whee.sumCounts (l.take j) ≤ Whee.sumCounts l := by
  conv_rhs => rw [← List.take_append_drop j l]
  rw [sumCounts_append]
  omega

theorem getD_concat_length {α : Type} [Inhabited α] (l : List α) (a : α) :
    (l ++ [a]).getD l.length default = a := by
  rw [List.getD_eq_getElem?_getD]
  simp

/-- Invariant-carrying description of the recompaction loop: starting from
a partial output satisfying the compaction invariants, the loop extends it
with the surviving remainder, keeping offsets equal to prefix sums and
back-references pointing at the new run indices. -/
theorem compactGo_spec (rest : List Whee.TextLayerGlyphRun) (i : Nat)
    (outRuns : List Whee.TextLayerGlyphRun) (outOff : Nat)
    (data : List Whee.TextLayerData) (gd : List Nat)
    (hidx : ∀ k, k < rest.length →
      Whee.usedRun (rest.getD k default) = true →
      (rest.getD k default).data < data.length ∧
      (data.getD (rest.getD k default).data default).glyphRun = i + k)
    (hlen_le : outRuns.length ≤ i)
    (hoff : outOff = Whee.sumCounts outRuns)
    (hpre : ∀ j, j < outRuns.length →
      (outRuns.getD j default).glyphOffset = Whee.sumCounts (outRuns.take j))
    (hbackout : ∀ j, j < outRuns.length →
      (outRuns.getD j default).data < data.length ∧
      (data.getD (outRuns.getD j default).data default).glyphRun = j)
    (hsum : outOff + Whee.sumCounts (rest.filter Whee.usedRun) <
      Whee.unusedGlyphOffset) :
    ((Whee.compactGo rest i outRuns outOff data gd).1.map
        (fun r => (r.glyphCount, r.data)) =
      outRuns.map (fun r => (r.glyphCount, r.data)) ++
        (rest.filter Whee.usedRun).map (fun r => (r.glyphCount, r.data))) ∧
    (∀ j, j < (Whee.compactGo rest i outRuns outOff data gd).1.length →
      ((Whee.compactGo rest i outRuns outOff data gd).1.getD j
          default).glyphOffset =
        Whee.sumCounts
          ((Whee.compactGo rest i outRuns outOff data gd).1.take j)) ∧
    (Whee.compactGo rest i outRuns outOff data gd).2.1.length = data.length ∧
    (∀ j, j < (Whee.compactGo rest i outRuns outOff data gd).1.length →
      ((Whee.compactGo rest i outRuns outOff data gd).1.getD j
          default).data < data.length ∧
      ((Whee.compactGo rest i outRuns outOff data gd).2.1.getD
          ((Whee.compactGo rest i outRuns outOff data gd).1.getD j
            default).data default).glyphRun = j) ∧
    (∀ r ∈ (Whee.compactGo rest i outRuns outOff data gd).1,
      r.glyphOffset ≠ Whee.unusedGlyphOffset) := by
  induction rest generalizing i outRuns outOff data gd with
  | nil =>
    simp only [Whee.compactGo]
    refine ⟨by simp, ?_, ?_, ?_, ?_⟩
    · exact hpre
    · trivial
    · exact hbackout
    intro r hr
    obtain ⟨j, hj, hget⟩ := List.mem_iff_getElem.mp hr
    have hgd : outRuns.getD j default = r := by
      rw [List.getD_eq_getElem _ _ hj, hget]
    have hoffj : r.glyphOffset = Whee.sumCounts (outRuns.take j) := by
      rw [← hgd]; exact hpre j hj
    have hle : Whee.sumCounts (outRuns.take j) ≤ Whee.sumCounts outRuns :=
      sumCounts_take_le ..
    have hempty : Whee.sumCounts (List.filter Whee.usedRun []) = 0 := rfl
    rw [hempty] at hsum
    omega
  | cons run rest ih =>
    by_cases hused : run.glyphOffset = Whee.unusedGlyphOffset
    · have husedb : Whee.usedRun run = false := by
        simp [Whee.usedRun, hused]
      have hstep : Whee.compactGo (run :: rest) i outRuns outOff data gd =
          Whee.compactGo rest (i + 1) outRuns outOff data gd := by
        simp only [Whee.compactGo]
        rw [if_pos hused]
      have hfilter : (run :: rest).filter Whee.usedRun =
          rest.filter Whee.usedRun := by
        simp [List.filter_cons, husedb]
      have hidx' : ∀ k, k < rest.length →
          Whee.usedRun (rest.getD k default) = true →
          (rest.getD k default).data < data.length ∧
          (data.getD (rest.getD k default).data default).glyphRun =
            (i + 1) + k := by
        intro k hk hu
        have horig := hidx (k + 1) (by simpa using Nat.succ_lt_succ hk)
          (by rwa [List.getD_cons_succ])
        rw [List.getD_cons_succ] at horig
        exact ⟨horig.1, by rw [horig.2]; omega⟩
      have hsum' : outOff + Whee.sumCounts (rest.filter Whee.usedRun) <
          Whee.unusedGlyphOffset := by rwa [hfilter] at hsum
      rw [hstep, hfilter]
      exact ih (i + 1) outRuns outOff data gd hidx' (by omega) hoff hpre
        hbackout hsum'
    · have husedb : Whee.usedRun run = true := by
        simp [Whee.usedRun, bne_iff_ne, hused]
      have hstep : Whee.compactGo (run :: rest) i outRuns outOff data gd =
          Whee.compactGo rest (i + 1)
            (outRuns ++ [{ run with glyphOffset := outOff }])
            (outOff + run.glyphCount)
            (if i ≠ outRuns.length then
              modifyAt data run.data
                (fun d => { d with glyphRun := outRuns.length })
            else data)
            (if run.glyphOffset ≠ outOff then
              Whee.copyWithin gd outOff run.glyphOffset run.glyphCount
            else gd) := by
        simp only [Whee.compactGo]
        rw [if_neg hused]
      set r' : Whee.TextLayerGlyphRun :=
        { run with glyphOffset := outOff } with hr'
      set data' := if i ≠ outRuns.length then
          modifyAt data run.data
            (fun d => { d with glyphRun := outRuns.length })
        else data with hdata'
      set gd' := if run.glyphOffset ≠ outOff then
          Whee.copyWithin gd outOff run.glyphOffset run.glyphCount
        else gd with hgd'
      have h0 := hidx 0 (by simp) (by simpa [List.getD_cons_zero] using husedb)
      rw [List.getD_cons_zero, Nat.add_zero] at h0
      have hdlen : data'.length = data.length := by
        rw [hdata']
        by_cases hie : i ≠ outRuns.length
        · rw [if_pos hie, modifyAt_length]
        · rw [if_neg hie]
      have hback_new : (data'.getD run.data default).glyphRun =
          outRuns.length := by
        rw [hdata']
        by_cases hie : i ≠ outRuns.length
        · rw [if_pos hie, modifyAt_getD_eq _ _ _ h0.1]
        · rw [if_neg hie]
          rw [h0.2]
          omega
      have hpres : ∀ x, (data.getD x default).glyphRun ≠ i →
          data'.getD x default = data.getD x default := by
        intro x hx
        rw [hdata']
        by_cases hie : i ≠ outRuns.length
        · rw [if_pos hie]
          refine modifyAt_getD_ne _ _ _ _ ?_
          intro hxe
          rw [hxe] at hx
          exact hx h0.2
        · rw [if_neg hie]
      have hidx' : ∀ k, k < rest.length →
          Whee.usedRun (rest.getD k default) = true →
          (rest.getD k default).data < data'.length ∧
          (data'.getD (rest.getD k default).data default).glyphRun =
            (i + 1) + k := by
        intro k hk hu
        have horig := hidx (k + 1) (by simpa using Nat.succ_lt_succ hk)
          (by rwa [List.getD_cons_succ])
        rw [List.getD_cons_succ] at horig
        have hne : (data.getD (rest.getD k default).data default).glyphRun ≠
            i := by rw [horig.2]; omega
        refine ⟨by rw [hdlen]; exact horig.1, ?_⟩
        rw [hpres _ hne, horig.2]
        omega
      have hnewlen : (outRuns ++ [r']).length = outRuns.length + 1 := by simp
      have hoff' : outOff + run.glyphCount =
          Whee.sumCounts (outRuns ++ [r']) := by
        rw [sumCounts_append, ← hoff]
        simp [Whee.sumCounts, hr']
      have hpre' : ∀ j, j < (outRuns ++ [r']).length →
          ((outRuns ++ [r']).getD j default).glyphOffset =
            Whee.sumCounts ((outRuns ++ [r']).take j) := by
        intro j hj
        rw [hnewlen] at hj
        by_cases hjl : j < outRuns.length
        · rw [List.getD_append _ _ _ _ hjl,
            List.take_append_of_le_length (le_of_lt hjl)]
          exact hpre j hjl
        · have hje : j = outRuns.length := by omega
          subst hje
          rw [getD_concat_length,
            List.take_append_of_le_length (le_refl _), List.take_length]
          simpa [hr'] using hoff
      have hbackout' : ∀ j, j < (outRuns ++ [r']).length →
          ((outRuns ++ [r']).getD j default).data < data'.length ∧
          (data'.getD ((outRuns ++ [r']).getD j default).data
            default).glyphRun = j := by
        intro j hj
        rw [hnewlen] at hj
        by_cases hjl : j < outRuns.length
        · rw [List.getD_append _ _ _ _ hjl]
          obtain ⟨hb1, hb2⟩ := hbackout j hjl
          have hne : (data.getD (outRuns.getD j default).data
              default).glyphRun ≠ i := by rw [hb2]; omega
          exact ⟨by rw [hdlen]; exact hb1, by rw [hpres _ hne, hb2]⟩
        · have hje : j = outRuns.length := by omega
          subst hje
          rw [getD_concat_length]
          have hrdata : r'.data = run.data := rfl
          rw [hrdata]
          exact ⟨by rw [hdlen]; exact h0.1, hback_new⟩
      have hfilter : (run :: rest).filter Whee.usedRun =
          run :: rest.filter Whee.usedRun := by
        simp [List.filter_cons, husedb]
      have hsum' : (outOff + run.glyphCount) +
          Whee.sumCounts (rest.filter Whee.usedRun) <
          Whee.unusedGlyphOffset := by
        rw [hfilter] at hsum
        have hcons : Whee.sumCounts (run :: rest.filter Whee.usedRun) =
            run.glyphCount + Whee.sumCounts (rest.filter Whee.usedRun) := by
          simp [Whee.sumCounts]
        omega
      obtain ⟨c1, c2, c3, c4, c5⟩ := ih (i + 1) (outRuns ++ [r'])
        (outOff + run.glyphCount) data' gd' hidx' (by rw [hnewlen]; omega)
        hoff' hpre' hbackout' hsum'
      rw [hstep]
      refine ⟨?_, c2, by rw [c3, hdlen], ?_, c5⟩
      · rw [c1, hfilter]
        have hmapr : ({ run with glyphOffset := outOff } :
            Whee.TextLayerGlyphRun).glyphCount = run.glyphCount := rfl
        simp [hr']
      · intro j hj
        obtain ⟨hc1, hc2⟩ := c4 j hj
        exact ⟨by rw [← hdlen]; exact hc1, hc2⟩

/-- C8: after the recompaction pass at the start of `TextLayer::doUpdate`,
no glyph run is marked unused, the surviving runs keep their relative order
(and their glyph counts and owning data), every run's `glyphOffset` equals
the sum of the glyph counts of the runs before it, and the data
back-references round-trip: `data[run(j).data].glyphRun = j`. The
hypotheses are the pre-pass invariant (each used run's owning data record
points back at it) and that the total glyph count stays below the `~0`
sentinel. -/
theorem textLayer_compaction_invariant (s : Whee.TextLayerState)
    (hback : ∀ m, m < s.glyphRuns.length →
      Whee.usedRun (s.glyphRuns.getD m default) = true →
      (s.glyphRuns.getD m default).data < s.data.length ∧
      (s.data.getD (s.glyphRuns.getD m default).data default).glyphRun = m)
    (hsum : Whee.sumCounts (s.glyphRuns.filter Whee.usedRun) <
      Whee.unusedGlyphOffset) :
    (∀ r ∈ (Whee.compactGlyphRuns s).glyphRuns,
      r.glyphOffset ≠ Whee.unusedGlyphOffset) ∧
    ((Whee.compactGlyphRuns s).glyphRuns.map
        (fun r => (r.glyphCount, r.data)) =
      (s.glyphRuns.filter Whee.usedRun).map
        (fun r => (r.glyphCount, r.data))) ∧
    (∀ j, j < (Whee.compactGlyphRuns s).glyphRuns.length →
      ((Whee.compactGlyphRuns s).glyphRuns.getD j default).glyphOffset =
        Whee.sumCounts ((Whee.compactGlyphRuns s).glyphRuns.take j)) ∧
    (Whee.compactGlyphRuns s).data.length = s.data.length ∧
    (∀ j, j < (Whee.compactGlyphRuns s).glyphRuns.length →
      ((Whee.compactGlyphRuns s).glyphRuns.getD j default).data <
        s.data.length ∧
      ((Whee.compactGlyphRuns s).data.getD
          ((Whee.compactGlyphRuns s).glyphRuns.getD j default).data
          default).glyphRun = j) := by
  have hgr : (Whee.compactGlyphRuns s).glyphRuns =
      (Whee.compactGo s.glyphRuns 0 [] 0 s.data s.glyphData).1 := rfl
  have hgd : (Whee.compactGlyphRuns s).data =
      (Whee.compactGo s.glyphRuns 0 [] 0 s.data s.glyphData).2.1 := rfl
  obtain ⟨c1, c2, c3, c4, c5⟩ := compactGo_spec s.glyphRuns 0 [] 0 s.data
    s.glyphData
    (by intro k hk hu; simpa using hback k hk hu)
    (by simp) rfl
    (by intro j hj; simp at hj)
    (by intro j hj; simp at hj)
    (by simpa using hsum)
  rw [hgr, hgd]
  refine ⟨c5, by simpa using c1, c2, c3, c4⟩

/-- Witness for C8 at a concrete state: two glyph runs of which the first
is marked unused; after compaction no run is unused and the data array
keeps its length. -/
theorem textLayer_compaction_invariant_witness :
    (∀ r ∈ (Whee.compactGlyphRuns
        ⟨[⟨Whee.unusedGlyphOffset, 1, 0⟩, ⟨1, 2, 1⟩],
         [⟨1, 0, 0, (0, 0, 0, 0), 0, (1, 1, 1)⟩,
          ⟨1, 0, 1, (0, 0, 0, 0), 0, (1, 1, 1)⟩],
         [5, 6, 7], false⟩).glyphRuns,
      r.glyphOffset ≠ Whee.unusedGlyphOffset) ∧
    (Whee.compactGlyphRuns
        ⟨[⟨Whee.unusedGlyphOffset, 1, 0⟩, ⟨1, 2, 1⟩],
         [⟨1, 0, 0, (0, 0, 0, 0), 0, (1, 1, 1)⟩,
          ⟨1, 0, 1, (0, 0, 0, 0), 0, (1, 1, 1)⟩],
         [5, 6, 7], false⟩).data.length =
      (⟨[⟨Whee.unusedGlyphOffset, 1, 0⟩, ⟨1, 2, 1⟩],
         [⟨1, 0, 0, (0, 0, 0, 0), 0, (1, 1, 1)⟩,
          ⟨1, 0, 1, (0, 0, 0, 0), 0, (1, 1, 1)⟩],
         [5, 6, 7], false⟩ : Whee.TextLayerState).data.length := by
  have h := textLayer_compaction_invariant
    ⟨[⟨Whee.unusedGlyphOffset, 1, 0⟩, ⟨1, 2, 1⟩],
     [⟨1, 0, 0, (0, 0, 0, 0), 0, (1, 1, 1)⟩,
      ⟨1, 0, 1, (0, 0, 0, 0), 0, (1, 1, 1)⟩],
     [5, 6, 7], false⟩
    (by decide) (by decide)
  exact ⟨h.1, h.2.2.2.1⟩

theorem getD_set_ne {α : Type} [Inhabited α] (l : List α) (i p : Nat) (a : α)
    (h : p ≠ i) : (l.set i a).getD p default = l.getD p default := by
  simp [List.getD_eq_getElem?_getD, List.getElem?_set_ne (Ne.symm h)]

theorem getD_set_eq {α : Type} [Inhabited α] (l : List α) (i : Nat) (a : α)
    (h : i < l.length) : (l.set i a).getD i default = a := by
  simp [List.getD_eq_getElem?_getD, List.getElem?_set_eq_of_lt a h]

namespace Whee

/-! ## `BaseLayer`

Transcribed from `src/Magnum/Whee/BaseLayer.cpp`. Scalars are modelled as
`ℚ`; `Math::lerp` with a `BitVector2` argument is a per-component select,
with bit 0 choosing the x component and bit 1 the y component. -/

structure BaseLayerData where
  outlineWidth : ℚ × ℚ × ℚ × ℚ
  color : ℚ × ℚ × ℚ
  style : Nat
deriving Inhabited, Repr, DecidableEq

structure BaseLayerVertex where
  position : ℚ × ℚ
  centerDistance : ℚ × ℚ
  outlineWidth : ℚ × ℚ × ℚ × ℚ
  color : ℚ × ℚ × ℚ
  style : Nat
deriving Inhabited, Repr, DecidableEq

/-- `Math::lerp(a, b, BitVector2{i})`: selects `b`'s component where the
corresponding bit is set. -/
def lerpSelect (a b : ℚ × ℚ) (bit0 bit1 : Bool) : ℚ × ℚ :=
  (if bit0 then b.1 else a.1, if bit1 then b.2 else a.2)

/-- The index-generation loop of `BaseLayer::doUpdate`: for the `i`-th data
id `d` the six indices `d*4 + (0, 2, 1, 2, 3, 1)` are written at positions
`6*i`..`6*i + 5` (the sequential writes at disjoint positions are modelled
by concatenation in loop order). -/
def baseLayerIndices : List Nat → List Nat
  | [] => []
  | d :: rest =>
    let vertexOffset := d * 4
    (vertexOffset + 0) :: (vertexOffset + 2) :: (vertexOffset + 1) ::
    (vertexOffset + 2) :: (vertexOffset + 3) :: (vertexOffset + 1) ::
    baseLayerIndices rest

/-- The vertex computed for corner `i` of the quad of data `dataId` in the
vertex-fill loop of `BaseLayer::doUpdate`. -/
def quadVertexAt (nodes : List Nat) (nodeOffsets nodeSizes : List (ℚ × ℚ))
    (data : List BaseLayerData) (dataId i : Nat) : BaseLayerVertex :=
  let nodeId := nodeHandleId (nodes.getD dataId 0)
  let d := data.getD dataId default
  let size := nodeSizes.getD nodeId (0, 0)
  let min := nodeOffsets.getD nodeId (0, 0)
  let max := (min.1 + size.1, min.2 + size.2)
  let sizeHalf := (size.1 * (1 / 2 : ℚ), size.2 * (1 / 2 : ℚ))
  let sizeHalfNegative := (-sizeHalf.1, -sizeHalf.2)
  { position := lerpSelect min max (i.testBit 0) (i.testBit 1),
    centerDistance :=
      lerpSelect sizeHalfNegative sizeHalf (i.testBit 0) (i.testBit 1),
    outlineWidth := d.outlineWidth,
    color := d.color,
    style := d.style }

/-- The four vertex writes `state.vertices[dataId*4 + i] = …` performed for
one data id. -/
def writeQuad (nodes : List Nat) (nodeOffsets nodeSizes : List (ℚ × ℚ))
    (data : List BaseLayerData) (vertices : List BaseLayerVertex)
    (dataId : Nat) : List BaseLayerVertex :=
  ((((vertices.set (dataId * 4 + 0)
      (quadVertexAt nodes nodeOffsets nodeSizes data dataId 0)).set
      (dataId * 4 + 1)
      (quadVertexAt nodes nodeOffsets nodeSizes data dataId 1)).set
      (dataId * 4 + 2)
      (quadVertexAt nodes nodeOffsets nodeSizes data dataId 2)).set
      (dataId * 4 + 3)
      (quadVertexAt nodes nodeOffsets nodeSizes data dataId 3))

/-- `arrayResize(…, NoInit, n)`: keeps the first `min(n, length)` existing
elements; the tail beyond the old length is uninitialised, modelled as
`default` values. -/
def arrayResizeNoInit {α : Type} [Inhabited α] (l : List α) (n : Nat) :
    List α :=
  l.take n ++ List.replicate (n - l.length) default

/-- `BaseLayer::doUpdate`: generates the index buffer for `dataIds` and
resizes the vertex buffer to `capacity()*4`, filling the quad corners of
every data in `dataIds`. -/
def baseLayerDoUpdate (dataIds nodes : List Nat)
    (nodeOffsets nodeSizes : List (ℚ × ℚ)) (data : List BaseLayerData)
    (capacity : Nat) (oldVertices : List BaseLayerVertex) :
    List Nat × List BaseLayerVertex :=
  (baseLayerIndices dataIds,
   dataIds.foldl (writeQuad nodes nodeOffsets nodeSizes data)
     (arrayResizeNoInit oldVertices (capacity * 4)))

end Whee

theorem baseLayerIndices_length (l : List Nat) :
    (Whee.baseLayerIndices l).length = 6 * l.length := by
  induction l with
  | nil => rfl
  | cons d rest ih =>
    simp only [Whee.baseLayerIndices, List.length_cons, ih]
    omega

theorem getD_cons_add6 {α : Type} (a b c d e f : α) (l : List α) (n : Nat)
    (dflt : α) :
    (a :: b :: c :: d :: e :: f :: l).getD (n + 6) dflt = l.getD n dflt := by
  simp only [show n + 6 = n + 1 + 1 + 1 + 1 + 1 + 1 from by omega,
    List.getD_cons_succ]

theorem baseLayerIndices_getD (l : List Nat) (i : Nat) (hi : i < l.length) :
    (Whee.baseLayerIndices l).getD (6 * i) 0 = l.getD i 0 * 4 + 0 ∧
    (Whee.baseLayerIndices l).getD (6 * i + 1) 0 = l.getD i 0 * 4 + 2 ∧
    (Whee.baseLayerIndices l).getD (6 * i + 2) 0 = l.getD i 0 * 4 + 1 ∧
    (Whee.baseLayerIndices l).getD (6 * i + 3) 0 = l.getD i 0 * 4 + 2 ∧
    (Whee.baseLayerIndices l).getD (6 * i + 4) 0 = l.getD i 0 * 4 + 3 ∧
    (Whee.baseLayerIndices l).getD (6 * i + 5) 0 = l.getD i 0 * 4 + 1 := by
  induction l generalizing i with
  | nil => simp at hi
  | cons d rest ih =>
    cases i with
    | zero =>
      refine ⟨?_, ?_, ?_, ?_, ?_, ?_⟩ <;>
        simp [Whee.baseLayerIndices, List.getD_cons_zero, List.getD_cons_succ]
    | succ n =>
      have hn : n < rest.length := by simpa using Nat.lt_of_succ_lt_succ hi
      obtain ⟨h0, h1, h2, h3, h4, h5⟩ := ih n hn
      have hpeel : ∀ k : Nat,
          (Whee.baseLayerIndices (d :: rest)).getD (6 * (n + 1) + k) 0 =
            (Whee.baseLayerIndices rest).getD (6 * n + k) 0 := by
        intro k
        have harith : 6 * (n + 1) + k = (6 * n + k) + 6 := by omega
        rw [harith]
        simp only [Whee.baseLayerIndices]
        exact getD_cons_add6 ..
      have hpeel0 :
          (Whee.baseLayerIndices (d :: rest)).getD (6 * (n + 1)) 0 =
            (Whee.baseLayerIndices rest).getD (6 * n) 0 := by
        have := hpeel 0
        simpa using this
      refine ⟨?_, ?_, ?_, ?_, ?_, ?_⟩
      · rw [hpeel0, List.getD_cons_succ]; exact h0
      · rw [hpeel 1, List.getD_cons_succ]; exact h1
      · rw [hpeel 2, List.getD_cons_succ]; exact h2
      · rw [hpeel 3, List.getD_cons_succ]; exact h3
      · rw [hpeel 4, List.getD_cons_succ]; exact h4
      · rw [hpeel 5, List.getD_cons_succ]; exact h5

theorem arrayResizeNoInit_length {α : Type} [Inhabited α] (l : List α)
    (n : Nat) : (Whee.arrayResizeNoInit l n).length = n := by
  simp only [Whee.arrayResizeNoInit, List.length_append, List.length_take,
    List.length_replicate]
  omega

theorem writeQuad_length (nodes : List Nat)
    (nodeOffsets nodeSizes : List (ℚ × ℚ)) (data : List Whee.BaseLayerData)
    (vs : List Whee.BaseLayerVertex) (d : Nat) :
    (Whee.writeQuad nodes nodeOffsets nodeSizes data vs d).length =
      vs.length := by
  simp [Whee.writeQuad]

theorem writeQuad_getD_ne (nodes : List Nat)
    (nodeOffsets nodeSizes : List (ℚ × ℚ)) (data : List Whee.BaseLayerData)
    (vs : List Whee.BaseLayerVertex) (d p : Nat)
    (hp : ∀ k, k < 4 → p ≠ d * 4 + k) :
    (Whee.writeQuad nodes nodeOffsets nodeSizes data vs d).getD p default =
      vs.getD p default := by
  simp only [Whee.writeQuad]
  rw [getD_set_ne _ _ _ _ (hp 3 (by omega)),
    getD_set_ne _ _ _ _ (hp 2 (by omega)),
    getD_set_ne _ _ _ _ (hp 1 (by omega)),
    getD_set_ne _ _ _ _ (hp 0 (by omega))]

theorem writeQuad_getD (nodes : List Nat)
    (nodeOffsets nodeSizes : List (ℚ × ℚ)) (data : List Whee.BaseLayerData)
    (vs : List Whee.BaseLayerVertex) (d : Nat)
    (hlen : d * 4 + 3 < vs.length) :
    ∀ k, k < 4 →
      (Whee.writeQuad nodes nodeOffsets nodeSizes data vs d).getD
          (d * 4 + k) default =
        Whee.quadVertexAt nodes nodeOffsets nodeSizes data d k := by
  intro k hk
  interval_cases k
  · simp only [Whee.writeQuad]
    rw [getD_set_ne _ _ _ _ (by omega), getD_set_ne _ _ _ _ (by omega),
      getD_set_ne _ _ _ _ (by omega), getD_set_eq _ _ _ (by omega)]
  · simp only [Whee.writeQuad]
    rw [getD_set_ne _ _ _ _ (by omega), getD_set_ne _ _ _ _ (by omega),
      getD_set_eq _ _ _ (by simp [List.length_set]; omega)]
  · simp only [Whee.writeQuad]
    rw [getD_set_ne _ _ _ _ (by omega),
      getD_set_eq _ _ _ (by simp [List.length_set]; omega)]
  · simp only [Whee.writeQuad]
    rw [getD_set_eq _ _ _ (by simp [List.length_set]; omega)]

theorem foldWrite_length (nodes : List Nat)
    (nodeOffsets nodeSizes : List (ℚ × ℚ)) (data : List Whee.BaseLayerData)
    (ids : List Nat) (vs : List Whee.BaseLayerVertex) :
    (ids.foldl (Whee.writeQuad nodes nodeOffsets nodeSizes data)
      vs).length = vs.length := by
  induction ids generalizing vs with
  | nil => rfl
  | cons d rest ih =>
    rw [List.foldl_cons, ih, writeQuad_length]

theorem foldWrite_getD_ne (nodes : List Nat)
    (nodeOffsets nodeSizes : List (ℚ × ℚ)) (data : List Whee.BaseLayerData)
    (ids : List Nat) (vs : List Whee.BaseLayerVertex) (p : Nat)
    (hp : ∀ d ∈ ids, ∀ k, k < 4 → p ≠ d * 4 + k) :
    (ids.foldl (Whee.writeQuad nodes nodeOffsets nodeSizes data) vs).getD p
        default = vs.getD p default := by
  induction ids generalizing vs with
  | nil => rfl
  | cons d rest ih =>
    rw [List.foldl_cons,
      ih _ (fun d' hd' => hp d' (List.mem_cons_of_mem _ hd')),
      writeQuad_getD_ne _ _ _ _ _ _ _ (hp d (List.mem_cons_self ..))]

theorem foldWrite_getD_mem (nodes : List Nat)
    (nodeOffsets nodeSizes : List (ℚ × ℚ)) (data : List Whee.BaseLayerData)
    (ids : List Nat) (vs : List Whee.BaseLayerVertex)
    (hnodup : ids.Nodup) (d : Nat) (hd : d ∈ ids)
    (hlen : d * 4 + 3 < vs.length) :
    ∀ k, k < 4 →
      (ids.foldl (Whee.writeQuad nodes nodeOffsets nodeSizes data)
          vs).getD (d * 4 + k) default =
        Whee.quadVertexAt nodes nodeOffsets nodeSizes data d k := by
  intro k hk
  induction ids generalizing vs with
  | nil => simp at hd
  | cons d0 rest ih =>
    rw [List.foldl_cons]
    rcases List.mem_cons.mp hd with hhead | htail
    · subst hhead
      have hnot : d ∉ rest := (List.nodup_cons.mp hnodup).1
      rw [foldWrite_getD_ne]
      · exact writeQuad_getD nodes nodeOffsets nodeSizes data vs d hlen k hk
      · intro d' hd' k' hk' heq
        have : d = d' := by omega
        exact hnot (this ▸ hd')
    · exact ih (Whee.writeQuad nodes nodeOffsets nodeSizes data vs d0)
        (List.nodup_cons.mp hnodup).2 htail
        (by rw [writeQuad_length]; exact hlen)

/-- C10: `BaseLayer::doUpdate` produces exactly `6 * |dataIds|` indices
where the six indices for the `i`-th data id `d` are
`4*d + (0, 2, 1, 2, 3, 1)` in the order given by `dataIds`; the vertex
array is resized to `4 * capacity()` and for each data in `dataIds` its
four vertices are the corners interpolated between the node offset and the
offset plus the node size. -/
theorem baseLayer_doUpdate_indices_vertices (dataIds nodes : List Nat)
    (nodeOffsets nodeSizes : List (ℚ × ℚ)) (data : List Whee.BaseLayerData)
    (capacity : Nat) (oldVertices : List Whee.BaseLayerVertex)
    (hnodup : dataIds.Nodup) (hcap : ∀ d ∈ dataIds, d < capacity) :
    (Whee.baseLayerDoUpdate dataIds nodes nodeOffsets nodeSizes data
        capacity oldVertices).1.length = 6 * dataIds.length ∧
    (∀ i, i < dataIds.length →
      (Whee.baseLayerDoUpdate dataIds nodes nodeOffsets nodeSizes data
          capacity oldVertices).1.getD (6 * i) 0 =
        4 * dataIds.getD i 0 + 0 ∧
      (Whee.baseLayerDoUpdate dataIds nodes nodeOffsets nodeSizes data
          capacity oldVertices).1.getD (6 * i + 1) 0 =
        4 * dataIds.getD i 0 + 2 ∧
      (Whee.baseLayerDoUpdate dataIds nodes nodeOffsets nodeSizes data
          capacity oldVertices).1.getD (6 * i + 2) 0 =
        4 * dataIds.getD i 0 + 1 ∧
      (Whee.baseLayerDoUpdate dataIds nodes nodeOffsets nodeSizes data
          capacity oldVertices).1.getD (6 * i + 3) 0 =
        4 * dataIds.getD i 0 + 2 ∧
      (Whee.baseLayerDoUpdate dataIds nodes nodeOffsets nodeSizes data
          capacity oldVertices).1.getD (6 * i + 4) 0 =
        4 * dataIds.getD i 0 + 3 ∧
      (Whee.baseLayerDoUpdate dataIds nodes nodeOffsets nodeSizes data
          capacity oldVertices).1.getD (6 * i + 5) 0 =
        4 * dataIds.getD i 0 + 1) ∧
    (Whee.baseLayerDoUpdate dataIds nodes nodeOffsets nodeSizes data
        capacity oldVertices).2.length = capacity * 4 ∧
    (∀ d ∈ dataIds,
      ((Whee.baseLayerDoUpdate dataIds nodes nodeOffsets nodeSizes data
          capacity oldVertices).2.getD (d * 4 + 0) default).position =
        ((nodeOffsets.getD (Whee.nodeHandleId (nodes.getD d 0)) (0, 0)).1,
         (nodeOffsets.getD (Whee.nodeHandleId (nodes.getD d 0)) (0, 0)).2) ∧
      ((Whee.baseLayerDoUpdate dataIds nodes nodeOffsets nodeSizes data
          capacity oldVertices).2.getD (d * 4 + 1) default).position =
        ((nodeOffsets.getD (Whee.nodeHandleId (nodes.getD d 0)) (0, 0)).1 +
           (nodeSizes.getD (Whee.nodeHandleId (nodes.getD d 0)) (0, 0)).1,
         (nodeOffsets.getD (Whee.nodeHandleId (nodes.getD d 0)) (0, 0)).2) ∧
      ((Whee.baseLayerDoUpdate dataIds nodes nodeOffsets nodeSizes data
          capacity oldVertices).2.getD (d * 4 + 2) default).position =
        ((nodeOffsets.getD (Whee.nodeHandleId (nodes.getD d 0)) (0, 0)).1,
         (nodeOffsets.getD (Whee.nodeHandleId (nodes.getD d 0)) (0, 0)).2 +
           (nodeSizes.getD (Whee.nodeHandleId (nodes.getD d 0)) (0, 0)).2) ∧
      ((Whee.baseLayerDoUpdate dataIds nodes nodeOffsets nodeSizes data
          capacity oldVertices).2.getD (d * 4 + 3) default).position =
        ((nodeOffsets.getD (Whee.nodeHandleId (nodes.getD d 0)) (0, 0)).1 +
           (nodeSizes.getD (Whee.nodeHandleId (nodes.getD d 0)) (0, 0)).1,
         (nodeOffsets.getD (Whee.nodeHandleId (nodes.getD d 0)) (0, 0)).2 +
           (nodeSizes.getD (Whee.nodeHandleId (nodes.getD d 0)) (0, 0)).2)) := by
  have hverts : (Whee.baseLayerDoUpdate dataIds nodes nodeOffsets nodeSizes
      data capacity oldVertices).2 =
      dataIds.foldl (Whee.writeQuad nodes nodeOffsets nodeSizes data)
        (Whee.arrayResizeNoInit oldVertices (capacity * 4)) := rfl
  have hinds : (Whee.baseLayerDoUpdate dataIds nodes nodeOffsets nodeSizes
      data capacity oldVertices).1 = Whee.baseLayerIndices dataIds := rfl
  have hrlen : (Whee.arrayResizeNoInit oldVertices
      (capacity * 4)).length = capacity * 4 := arrayResizeNoInit_length ..
  refine ⟨?_, ?_, ?_, ?_⟩
  · rw [hinds]; exact baseLayerIndices_length ..
  · intro i hi
    rw [hinds]
    obtain ⟨h0, h1, h2, h3, h4, h5⟩ := baseLayerIndices_getD dataIds i hi
    refine ⟨?_, ?_, ?_, ?_, ?_, ?_⟩ <;> omega
  · rw [hverts, foldWrite_length, hrlen]
  · intro d hd
    have hlen : d * 4 + 3 < (Whee.arrayResizeNoInit oldVertices
        (capacity * 4)).length := by
      rw [hrlen]
      have := hcap d hd
      omega
    have hq := foldWrite_getD_mem nodes nodeOffsets nodeSizes data dataIds
      (Whee.arrayResizeNoInit oldVertices (capacity * 4)) hnodup d hd hlen
    rw [hverts]
    refine ⟨?_, ?_, ?_, ?_⟩
    · rw [hq 0 (by omega)]
      simp [Whee.quadVertexAt, Whee.lerpSelect,
        show (0 : Nat).testBit 0 = false from by decide,
        show (0 : Nat).testBit 1 = false from by decide]
    · rw [hq 1 (by omega)]
      simp [Whee.quadVertexAt, Whee.lerpSelect,
        show (1 : Nat).testBit 0 = true from by decide,
        show (1 : Nat).testBit 1 = false from by decide]
    · rw [hq 2 (by omega)]
      simp [Whee.quadVertexAt, Whee.lerpSelect,
        show (2 : Nat).testBit 0 = false from by decide,
        show (2 : Nat).testBit 1 = true from by decide]
    · rw [hq 3 (by omega)]
      simp [Whee.quadVertexAt, Whee.lerpSelect,
        show (3 : Nat).testBit 0 = true from by decide,
        show (3 : Nat).testBit 1 = true from by decide]

/-- Witness for C10 at concrete inputs: one data id over one node at offset
`(1, 2)` of size `(3, 4)`. -/
theorem baseLayer_doUpdate_indices_vertices_witness :
    (Whee.baseLayerDoUpdate [0] [0] [(1, 2)] [(3, 4)]
        [⟨(0, 0, 0, 0), (1, 1, 1), 0⟩] 1 []).1.length = 6 ∧
    ((Whee.baseLayerDoUpdate [0] [0] [(1, 2)] [(3, 4)]
        [⟨(0, 0, 0, 0), (1, 1, 1), 0⟩] 1 []).2.getD 3
        default).position = ((1 : ℚ) + 3, (2 : ℚ) + 4) := by
  have h := baseLayer_doUpdate_indices_vertices [0] [0] [(1, 2)] [(3, 4)]
    [⟨(0, 0, 0, 0), (1, 1, 1), 0⟩] 1 [] (by simp) (by simp)
  refine ⟨by simpa using h.1, ?_⟩
  have h4 := (h.2.2.2 0 (by simp)).2.2.2
  simpa [Whee.nodeHandleId, Whee.NodeHandleIdBits] using h4

namespace Ui

/-! ## Event dispatch

The implementation file of `AbstractUserInterface`'s event entry points is
not among the sources; the models below follow the specification and the
doc comments in `AbstractUserInterface.h`. -/

/-- Modelled from the spec: the capture reference after
`pointerReleaseEvent` (whose implementation is missing from the sources).
A primary release unconditionally clears the capture, independently of the
accept status and of any `setCaptured()` request made by handlers; a
non-primary release leaves the capture alone unless a handler requested a
change via `setCaptured()` (`none` request = untouched, `some true` =
capture the hit node, `some false` = release). -/
def pointerReleaseCaptureAfter (captured : Option Nat) (primary : Bool)
    (accepted : Bool) (hitNode : Option Nat)
    (capturedRequest : Option Bool) : Option Nat :=
  if primary then none
  else
    match capturedRequest with
    | none => captured
    | some true => hitNode
    | some false => none

/-- Node record features relevant to focusability, per the spec's node
model: own flags plus, for a root, whether it is in the top-level order. -/
structure NodeRec where
  parent : Option Nat
  hidden : Bool
  disabled : Bool
  noEvents : Bool
  focusable : Bool
  inOrder : Bool
deriving Inhabited, Repr, DecidableEq

/-- Modelled from the spec: a node cannot receive focus if it or any of
its parents is invisible (Hidden, or the root hierarchy is not in the
top-level order) or has Disabled or NoEvents set. The fuel argument bounds
the parent chain (callers pass `nodes.length + 1`). -/
def cannotBeFocused (nodes : List NodeRec) : Nat → Nat → Bool
  | 0, _ => true
  | fuel + 1, id =>
    let n := nodes.getD id default
    if n.hidden || n.disabled || n.noEvents then true
    else
      match n.parent with
      | none => !n.inOrder
      | some p => cannotBeFocused nodes fuel p

/-- Modelled from the spec: `focusEvent(node, event)` (implementation
missing from the sources). A null target blurs the focused node; a target
that cannot be focused makes the call a no-op returning false; otherwise
the focus event is dispatched, and on acceptance the node becomes focused,
on rejection the previous node stays unless it is the target itself, which
is then blurred. -/
def focusEvent (nodes : List NodeRec) (focused : Option Nat)
    (target : Option Nat) (accepted : Bool) : Bool × Option Nat :=
  match target with
  | none => (false, none)
  | some id =>
    if cannotBeFocused nodes (nodes.length + 1) id then (false, focused)
    else if accepted then (true, some id)
    else if focused = some id then (false, none)
    else (false, focused)

/-- Modelled from the spec: the focused-node update of a primary
`pointerPressEvent` accepted on node `acceptedNode` — pressing on a
non-Focusable node resets (blurs) the focused node, unlike
`focusEvent`. -/
def pressFocusUpdate (nodes : List NodeRec) (focused : Option Nat)
    (acceptedNode : Nat) (focusAccepted : Bool) : Option Nat :=
  if (nodes.getD acceptedNode default).focusable then
    (if focusAccepted then some acceptedNode else focused)
  else none

/-- Modelled from the spec: `textInputEvent` (implementation missing from
the sources). `dataNodes` is the per-data attachment (the layer's
`nodes()` array); the event is dispatched only to data attached to the
focused node and rejected immediately when no node is focused; returns
whether any dispatched data accepted, together with the dispatched data
ids. -/
def textInputEvent (dataNodes : List (Option Nat)) (accepts : Nat → Bool)
    (focused : Option Nat) : Bool × List Nat :=
  match focused with
  | none => (false, [])
  | some n =>
    let dispatched := (List.range dataNodes.length).filter
      (fun i => dataNodes.getD i none == some n)
    (dispatched.any accepts, dispatched)

end Ui

/-- C5: after a `pointerReleaseEvent` with a primary event that happens
while a node is captured, the capture is cleared — `currentCapturedNode()`
is Null afterwards — regardless of whether any data accepted the release
and regardless of any `setCaptured()` request made during the call. -/
theorem pointerRelease_clears_capture (n : Nat) (captured : Option Nat)
    (accepted : Bool) (hitNode : Option Nat)
    (capturedRequest : Option Bool) (hcap : captured = some n) :
    Ui.pointerReleaseCaptureAfter captured true accepted hitNode
      capturedRequest = none := by
  simp [Ui.pointerReleaseCaptureAfter]

/-- Witness for C5 at concrete inputs: node 5 captured, release not
accepted, handler requesting capture — still cleared. -/
theorem pointerRelease_clears_capture_witness :
    Ui.pointerReleaseCaptureAfter (some 5) true false (some 7)
      (some true) = none :=
  pointerRelease_clears_capture 5 (some 5) false (some 7) (some true) rfl

/-- C6: `focusEvent` on a non-null node that cannot be focused (it or a
parent is hidden, out of the top-level order, disabled or ignoring events)
is a no-op returning false that keeps the previously focused node — unlike
the focus handling of `pointerPressEvent`, which resets the focused node
when the press lands on a non-focusable node. -/
theorem focusEvent_noop_on_unfocusable (nodes : List Ui.NodeRec)
    (focused : Option Nat) (id : Nat) (accepted : Bool)
    (hblocked : Ui.cannotBeFocused nodes (nodes.length + 1) id = true) :
    Ui.focusEvent nodes focused (some id) accepted = (false, focused) ∧
    ∀ n : Nat, (nodes.getD n default).focusable = false →
      Ui.pressFocusUpdate nodes focused n accepted = none := by
  constructor
  · simp [Ui.focusEvent, hblocked]
  · intro n hn
    simp only [Ui.pressFocusUpdate]
    rw [if_neg (by rw [hn]; exact Bool.false_ne_true)]

/-- Witness for C6 at a concrete hierarchy: a hidden focusable root; the
explicit focus event preserves the focused node while a press on a
non-focusable node would reset it. -/
theorem focusEvent_noop_on_unfocusable_witness :
    Ui.focusEvent [⟨none, true, false, false, true, true⟩] (some 0)
        (some 0) true = (false, some 0) ∧
      Ui.pressFocusUpdate [⟨none, true, false, false, false, true⟩]
        (some 0) 0 true = none := by
  have h1 := focusEvent_noop_on_unfocusable
    [⟨none, true, false, false, true, true⟩] (some 0) 0 true (by decide)
  have h2 := focusEvent_noop_on_unfocusable
    [⟨none, true, false, false, false, true⟩] (some 0) 0 true (by decide)
  exact ⟨h1.1, h2.2 0 (by decide)⟩

/-- C7: `textInputEvent` requires a focused node — with no focused node it
returns false and dispatches to no data; with a focused node it is
dispatched exactly to the data attached to that node (no pointer-position
fallback) and returns true iff at least one of them accepted. -/
theorem textInput_requires_focus (dataNodes : List (Option Nat))
    (accepts : Nat → Bool) :
    Ui.textInputEvent dataNodes accepts none = (false, []) ∧
    ∀ n : Nat,
      (∀ i ∈ (Ui.textInputEvent dataNodes accepts (some n)).2,
        dataNodes.getD i none = some n) ∧
      ((Ui.textInputEvent dataNodes accepts (some n)).1 = true ↔
        ∃ i, i < dataNodes.length ∧ dataNodes.getD i none = some n ∧
          accepts i = true) := by
  refine ⟨rfl, ?_⟩
  intro n
  constructor
  · intro i hi
    simp only [Ui.textInputEvent, List.mem_filter, List.mem_range,
      beq_iff_eq] at hi
    exact hi.2
  · simp only [Ui.textInputEvent, List.any_eq_true, List.mem_filter,
      List.mem_range, beq_iff_eq]
    constructor
    · rintro ⟨i, ⟨hi, hatt⟩, hacc⟩
      exact ⟨i, hi, hatt, hacc⟩
    · rintro ⟨i, hi, hatt, hacc⟩
      exact ⟨i, ⟨hi, hatt⟩, hacc⟩

/-- Witness for C7 at concrete inputs: two data of which the first is
attached to node 3; no focus rejects, focus on node 3 accepts. -/
theorem textInput_requires_focus_witness :
    Ui.textInputEvent [some 3, none] (fun _ => true) none = (false, []) ∧
      (Ui.textInputEvent [some 3, none] (fun _ => true) (some 3)).1 =
        true := by
  have h := textInput_requires_focus [some 3, none] (fun _ => true)
  exact ⟨h.1, ((h.2 3).2).mpr ⟨0, by norm_num, rfl, rfl⟩⟩

theorem markGlyphRunUnused_data (s : Whee.TextLayerState) (i : Nat) :
    (Whee.markGlyphRunUnused s i).data = s.data := rfl

theorem markGlyphRunUnused_glyphData (s : Whee.TextLayerState) (i : Nat) :
    (Whee.markGlyphRunUnused s i).glyphData = s.glyphData := rfl

theorem markGlyphRunUnused_needsUpdate (s : Whee.TextLayerState) (i : Nat) :
    (Whee.markGlyphRunUnused s i).needsUpdate = s.needsUpdate := rfl

theorem markGlyphRunUnused_length (s : Whee.TextLayerState) (i : Nat) :
    (Whee.markGlyphRunUnused s i).glyphRuns.length = s.glyphRuns.length :=
  modifyAt_length ..

theorem markGlyphRunUnused_getD_ne (s : Whee.TextLayerState) (i j : Nat)
    (h : j ≠ (s.data.getD i default).glyphRun) :
    (Whee.markGlyphRunUnused s i).glyphRuns.getD j default =
      s.glyphRuns.getD j default :=
  modifyAt_getD_ne _ _ _ _ h

theorem markGlyphRunUnused_getD_eq (s : Whee.TextLayerState) (i : Nat)
    (h : (s.data.getD i default).glyphRun < s.glyphRuns.length) :
    (Whee.markGlyphRunUnused s i).glyphRuns.getD
        (s.data.getD i default).glyphRun default =
      { s.glyphRuns.getD (s.data.getD i default).glyphRun default with
        glyphOffset := Whee.unusedGlyphOffset } :=
  modifyAt_getD_eq _ _ _ h

/-- Collapsing two consecutive unused-markings of the same run. -/
theorem glyphRun_mark_idem (r : Whee.TextLayerGlyphRun) :
    ({ { r with glyphOffset := Whee.unusedGlyphOffset } with
        glyphOffset := Whee.unusedGlyphOffset } : Whee.TextLayerGlyphRun) =
      { r with glyphOffset := Whee.unusedGlyphOffset } := rfl

/-- Behaviour of the `doClean` marking loop over an arbitrary list of data
indices: everything except the glyph runs of flagged data is untouched, and
those runs only get their `glyphOffset` replaced by the unused sentinel. -/
theorem markRemoved_spec (bits : List Bool) (is : List Nat)
    (s : Whee.TextLayerState)
    (hrun : ∀ i ∈ is, bits.getD i false = true →
      (s.data.getD i default).glyphRun < s.glyphRuns.length) :
    (Whee.markRemoved bits is s).data = s.data ∧
    (Whee.markRemoved bits is s).glyphData = s.glyphData ∧
    (Whee.markRemoved bits is s).needsUpdate = s.needsUpdate ∧
    (Whee.markRemoved bits is s).glyphRuns.length = s.glyphRuns.length ∧
    ∀ j,
      ((∃ i ∈ is, bits.getD i false = true ∧
          (s.data.getD i default).glyphRun = j) →
        (Whee.markRemoved bits is s).glyphRuns.getD j default =
          { s.glyphRuns.getD j default with
            glyphOffset := Whee.unusedGlyphOffset }) ∧
      ((¬∃ i ∈ is, bits.getD i false = true ∧
          (s.data.getD i default).glyphRun = j) →
        (Whee.markRemoved bits is s).glyphRuns.getD j default =
          s.glyphRuns.getD j default) := by
  induction is generalizing s with
  | nil =>
    refine ⟨rfl, rfl, rfl, rfl, fun j => ⟨?_, fun _ => rfl⟩⟩
    rintro ⟨i, hi, -⟩
    simp at hi
  | cons i rest ih =>
    by_cases hflag : bits.getD i false = true
    · have hr : (s.data.getD i default).glyphRun < s.glyphRuns.length :=
        hrun i (by simp) hflag
      set s' := Whee.markGlyphRunUnused s i with hs'
      have hdata : s'.data = s.data := rfl
      have hgd : s'.glyphData = s.glyphData := rfl
      have hnu : s'.needsUpdate = s.needsUpdate := rfl
      have hlen : s'.glyphRuns.length = s.glyphRuns.length :=
        markGlyphRunUnused_length ..
      have hrun' : ∀ i' ∈ rest, bits.getD i' false = true →
          (s'.data.getD i' default).glyphRun < s'.glyphRuns.length := by
        intro i' hi' hf
        rw [hdata, hlen]
        exact hrun i' (by simp [hi']) hf
      obtain ⟨h1, h2, h3, h4, h5⟩ := ih s' hrun'
      have hstep : Whee.markRemoved bits (i :: rest) s =
          Whee.markRemoved bits rest s' := by
        simp only [Whee.markRemoved]
        rw [if_pos hflag]
      refine ⟨?_, ?_, ?_, ?_, ?_⟩
      · rw [hstep, h1, hdata]
      · rw [hstep, h2, hgd]
      · rw [hstep, h3, hnu]
      · rw [hstep, h4, hlen]
      · intro j
        have hcond : ∀ i' ∈ rest,
            ((s'.data.getD i' default).glyphRun =
              (s.data.getD i' default).glyphRun) := by
          intro i' _; rw [hdata]
        constructor
        · rintro ⟨i', hi', hf', hj'⟩
          rw [hstep]
          by_cases hrest : ∃ i'' ∈ rest, bits.getD i'' false = true ∧
              (s'.data.getD i'' default).glyphRun = j
          · rw [(h5 j).1 hrest]
            by_cases hje : j = (s.data.getD i default).glyphRun
            · rw [hje, markGlyphRunUnused_getD_eq s i hr, glyphRun_mark_idem,
                ← hje]
            · rw [markGlyphRunUnused_getD_ne s i j hje]
          · rcases List.mem_cons.mp hi' with hhead | htail
            · subst hhead
              rw [(h5 j).2 hrest, ← hj', hs',
                markGlyphRunUnused_getD_eq s i' hr]
            · exact absurd ⟨i', htail, hf', by rw [hdata, hj']⟩ hrest
        · intro hnone
          have hji : j ≠ (s.data.getD i default).glyphRun := by
            intro hje
            exact hnone ⟨i, by simp, hflag, hje.symm⟩
          have hrest : ¬∃ i'' ∈ rest, bits.getD i'' false = true ∧
              (s'.data.getD i'' default).glyphRun = j := by
            rintro ⟨i'', hi'', hf'', hj''⟩
            rw [hdata] at hj''
            exact hnone ⟨i'', by simp [hi''], hf'', hj''⟩
          rw [hstep, (h5 j).2 hrest, markGlyphRunUnused_getD_ne s i j hji]
    · have hstep : Whee.markRemoved bits (i :: rest) s =
          Whee.markRemoved bits rest s := by
        simp only [Whee.markRemoved]
        rw [if_neg hflag]
      have hrun' : ∀ i' ∈ rest, bits.getD i' false = true →
          (s.data.getD i' default).glyphRun < s.glyphRuns.length :=
        fun i' hi' hf => hrun i' (by simp [hi']) hf
      obtain ⟨h1, h2, h3, h4, h5⟩ := ih s hrun'
      refine ⟨by rw [hstep, h1], by rw [hstep, h2], by rw [hstep, h3],
        by rw [hstep, h4], ?_⟩
      intro j
      constructor
      · rintro ⟨i', hi', hf', hj'⟩
        rcases List.mem_cons.mp hi' with hhead | htail
        · subst hhead; exact absurd hf' hflag
        · rw [hstep]; exact (h5 j).1 ⟨i', htail, hf', hj'⟩
      · intro hnone
        rw [hstep]
        refine (h5 j).2 ?_
        rintro ⟨i', hi', hf', hj'⟩
        exact hnone ⟨i', by simp [hi'], hf', hj'⟩

/-- C9: `TextLayer::remove` (via `removeInternal`) and `doClean` only mark
the removed data's glyph run as unused by setting its `glyphOffset` to the
`~0` sentinel; they do not call `setNeedsUpdate` (the layer's needs-update
flag is unchanged), and all other glyph runs, all data records and the
glyph data array are left unmodified. -/
theorem textLayer_remove_marks_only (s : Whee.TextLayerState) (id : Nat)
    (hid : id < s.data.length)
    (hrun : (s.data.getD id default).glyphRun < s.glyphRuns.length) :
    ((Whee.removeInternal s id).data = s.data ∧
     (Whee.removeInternal s id).glyphData = s.glyphData ∧
     (Whee.removeInternal s id).needsUpdate = s.needsUpdate ∧
     (Whee.removeInternal s id).glyphRuns.length = s.glyphRuns.length ∧
     (∀ j, j ≠ (s.data.getD id default).glyphRun →
       (Whee.removeInternal s id).glyphRuns.getD j default =
         s.glyphRuns.getD j default) ∧
     (Whee.removeInternal s id).glyphRuns.getD
         (s.data.getD id default).glyphRun default =
       { s.glyphRuns.getD (s.data.getD id default).glyphRun default with
         glyphOffset := Whee.unusedGlyphOffset }) ∧
    ∀ bits : List Bool,
      (∀ i, i < bits.length → bits.getD i false = true →
        (s.data.getD i default).glyphRun < s.glyphRuns.length) →
      (Whee.doClean s bits).data = s.data ∧
      (Whee.doClean s bits).glyphData = s.glyphData ∧
      (Whee.doClean s bits).needsUpdate = s.needsUpdate ∧
      (Whee.doClean s bits).glyphRuns.length = s.glyphRuns.length ∧
      ∀ j,
        ((∃ i, i < bits.length ∧ bits.getD i false = true ∧
            (s.data.getD i default).glyphRun = j) →
          (Whee.doClean s bits).glyphRuns.getD j default =
            { s.glyphRuns.getD j default with
              glyphOffset := Whee.unusedGlyphOffset }) ∧
        ((¬∃ i, i < bits.length ∧ bits.getD i false = true ∧
            (s.data.getD i default).glyphRun = j) →
          (Whee.doClean s bits).glyphRuns.getD j default =
            s.glyphRuns.getD j default) := by
  constructor
  · exact ⟨rfl, rfl, rfl, markGlyphRunUnused_length ..,
      fun j hj => markGlyphRunUnused_getD_ne s id j hj,
      markGlyphRunUnused_getD_eq s id hrun⟩
  · intro bits hbits
    have hall : ∀ i ∈ List.range bits.length, bits.getD i false = true →
        (s.data.getD i default).glyphRun < s.glyphRuns.length := by
      intro i hi hf
      exact hbits i (List.mem_range.mp hi) hf
    obtain ⟨h1, h2, h3, h4, h5⟩ :=
      markRemoved_spec bits (List.range bits.length) s hall
    refine ⟨h1, h2, h3, h4, fun j => ⟨?_, ?_⟩⟩
    · rintro ⟨i, hi, hf, hj⟩
      exact (h5 j).1 ⟨i, List.mem_range.mpr hi, hf, hj⟩
    · intro hnone
      refine (h5 j).2 ?_
      rintro ⟨i, hi, hf, hj⟩
      exact hnone ⟨i, List.mem_range.mp hi, hf, hj⟩

/-- Witness for C9 at a concrete layer state: one data record with one
glyph run; removal leaves the data array and the needs-update flag
untouched. -/
theorem textLayer_remove_marks_only_witness :
    (Whee.removeInternal
        ⟨[⟨0, 2, 0⟩], [⟨1, 0, 0, (0, 0, 0, 0), 0, (1, 1, 1)⟩], [10, 11],
          false⟩ 0).data =
      [⟨1, 0, 0, (0, 0, 0, 0), 0, (1, 1, 1)⟩] ∧
    (Whee.removeInternal
        ⟨[⟨0, 2, 0⟩], [⟨1, 0, 0, (0, 0, 0, 0), 0, (1, 1, 1)⟩], [10, 11],
          false⟩ 0).needsUpdate = false := by
  have h := textLayer_remove_marks_only
    ⟨[⟨0, 2, 0⟩], [⟨1, 0, 0, (0, 0, 0, 0), 0, (1, 1, 1)⟩], [10, 11], false⟩ 0
    (by simp) (by simp [List.getD])
  exact ⟨h.1.1, h.1.2.2.1⟩
